import Mathlib

/-!
Verification of `scripts/summarize_changes.py` (documentation-changelog
generator).  The Python script is shallowly embedded: JSON-representable
Python values become the inductive type `JVal`; the Gemini client, git
queries and the filesystem are opaque collaborators passed in as
parameters; every in-repo function keeps its Python name
(`slugify`, `generate_summary`, `load_changelog`, `save_changelog`,
`update_json_data`, and `process_file` for one iteration of `main`'s
file loop).  String-level primitives of the Python runtime
(`str.lower`, `str.strip`, `str.title`, `str.replace`, `re.sub` on the
two fixed patterns, `json.dumps(indent=2, ensure_ascii=False)` and
`json.loads`) are modelled character-by-character on ASCII text, the
only alphabet the script manipulates structurally.
-/

/-- JSON-representable Python values as produced by `json.loads` and
consumed by `json.dumps` in the script: `None`/`null`, strings, lists
and string-keyed dicts.  The script never stores numbers or booleans in
`changelog.json`, so those constructors are not needed. -/
inductive JVal : Type where
  | null : JVal
  | str (s : String) : JVal
  | arr (xs : List JVal) : JVal
  | obj (kvs : List (String × JVal)) : JVal

/-- Python `dict` lookup for an association list built by repeated
insertion (`json.loads` keeps the last binding of a duplicated key). -/
def jget (kvs : List (String × JVal)) (k : String) : Option JVal :=
  kvs.foldl (fun acc kv => if kv.1 = k then some kv.2 else acc) none

/-! ## `slugify` (lines 75-81 of the script)

    text = text.lower().strip()
    text = re.sub(r'[^\w\s-]', '', text)
    text = re.sub(r'[\s_-]+', '-', text)

`\w` and `\s` are modelled over ASCII (`isAlphanum`/underscore and the
six Python whitespace characters). -/

/-- Python whitespace as tested by `str.strip` and `\s` (ASCII part). -/
def isPySpace (c : Char) : Bool :=
  c = ' ' || c = '\t' || c = '\n' || c = '\r' || c = '\x0b' || c = '\x0c'

/-- Regex `\w`: alphanumeric or underscore (ASCII part). -/
def isWordChar (c : Char) : Bool := c.isAlphanum || c = '_'

/-- Character class `[\s_-]` of the run-collapsing substitution. -/
def isRunChar (c : Char) : Bool := isPySpace c || c = '_' || c = '-'

/-- Characters kept by `re.sub(r'[^\w\s-]', '', text)`. -/
def keepChar (c : Char) : Bool := isWordChar c || isPySpace c || c = '-'

/-- Python `str.strip` on a character list. -/
def pyStrip (l : List Char) : List Char :=
  ((l.dropWhile isPySpace).reverse.dropWhile isPySpace).reverse

/-- Model of `re.sub(r'[\s_-]+', '-', text)`: each maximal nonempty run
of `[\s_-]` characters becomes a single hyphen.  The boolean records
whether the previous character belonged to the current run. -/
def collapse : Bool → List Char → List Char
  | _, [] => []
  | inRun, c :: cs =>
    if isRunChar c then
      (if inRun then collapse true cs else '-' :: collapse true cs)
    else c :: collapse false cs

/-- The script's `slugify`: lowercase, strip, drop `[^\w\s-]`, collapse
`[\s_-]+` runs to single hyphens. -/
def slugify (text : String) : String :=
  ⟨collapse false ((pyStrip (text.data.map Char.toLower)).filter keepChar)⟩

/-! ### Character-level facts used by the `slugify` proofs -/

theorem char_toNat_ofNat_of_lt {n : Nat} (h : n < 55296) :
    (Char.ofNat n).toNat = n := by
  unfold Char.ofNat
  rw [dif_pos (Or.inl h)]
  rfl

theorem char_toLower_idem (c : Char) :
    Char.toLower (Char.toLower c) = Char.toLower c := by
  unfold Char.toLower
  by_cases h : c.toNat ≥ 65 ∧ c.toNat ≤ 90
  · rw [if_pos h]
    have hv : (Char.ofNat (c.toNat + 32)).toNat = c.toNat + 32 :=
      char_toNat_ofNat_of_lt (by omega)
    rw [if_neg (by omega)]
  · rw [if_neg h, if_neg h]

theorem char_toLower_dash : Char.toLower '-' = '-' := by decide

/-! ### Generic list lemmas for the idempotence argument -/

theorem mem_dropWhile {l : List Char} {p : Char → Bool} {c : Char}
    (h : c ∈ l.dropWhile p) : c ∈ l := by
  induction l with
  | nil => simp at h
  | cons a t ih =>
    by_cases hp : p a
    · simp only [List.dropWhile, hp] at h
      exact List.mem_cons_of_mem _ (ih h)
    · simp only [List.dropWhile, hp] at h
      simpa using h

theorem mem_pyStrip {l : List Char} {c : Char} (h : c ∈ pyStrip l) : c ∈ l := by
  unfold pyStrip at h
  rw [List.mem_reverse] at h
  have h2 := mem_dropWhile h
  rw [List.mem_reverse] at h2
  exact mem_dropWhile h2

theorem dropWhile_eq_self_of {l : List Char} {p : Char → Bool}
    (h : ∀ c ∈ l, p c = false) : l.dropWhile p = l := by
  cases l with
  | nil => rfl
  | cons a t => simp [List.dropWhile, h a (List.mem_cons_self a t)]

theorem pyStrip_eq_self_of {l : List Char}
    (h : ∀ c ∈ l, isPySpace c = false) : pyStrip l = l := by
  unfold pyStrip
  rw [dropWhile_eq_self_of h, dropWhile_eq_self_of (by
    intro c hc
    exact h c (List.mem_reverse.mp hc)), List.reverse_reverse]

theorem map_eq_self_of {l : List Char} {f : Char → Char}
    (h : ∀ c ∈ l, f c = c) : l.map f = l := by
  induction l with
  | nil => rfl
  | cons a t ih =>
    simp only [List.map_cons, h a (List.mem_cons_self a t)]
    rw [ih (fun c hc => h c (List.mem_cons_of_mem _ hc))]

/-- Every character of a `collapse` result is either the inserted hyphen
or a non-run character of the input. -/
theorem mem_collapse {c : Char} :
    ∀ (l : List Char) (b : Bool), c ∈ collapse b l →
      c = '-' ∨ (c ∈ l ∧ isRunChar c = false) := by
  intro l
  induction l with
  | nil => intro b h; simp [collapse] at h
  | cons a t ih =>
    intro b h
    by_cases hr : isRunChar a
    · cases b with
      | true =>
        simp only [collapse, hr, if_true] at h
        rcases ih true h with h1 | ⟨h2, h3⟩
        · exact Or.inl h1
        · exact Or.inr ⟨List.mem_cons_of_mem _ h2, h3⟩
      | false =>
        simp only [collapse, hr, if_true] at h
        rcases List.mem_cons.mp h with h1 | h1
        · exact Or.inl h1
        · rcases ih true h1 with h2 | ⟨h3, h4⟩
          · exact Or.inl h2
          · exact Or.inr ⟨List.mem_cons_of_mem _ h3, h4⟩
    · simp only [collapse, hr, if_false] at h
      rcases List.mem_cons.mp h with h1 | h1
      · subst h1
        exact Or.inr ⟨List.mem_cons_self _ _, by simpa using hr⟩
      · rcases ih false h1 with h2 | ⟨h3, h4⟩
        · exact Or.inl h2
        · exact Or.inr ⟨List.mem_cons_of_mem _ h3, h4⟩

/-- Collapsing is a projection: re-collapsing its output changes nothing. -/
theorem collapse_collapse :
    ∀ (l : List Char),
      (∀ b, collapse false (collapse b l) = collapse b l) ∧
      collapse true (collapse true l) = collapse true l := by
  intro l
  induction l with
  | nil => exact ⟨fun b => rfl, rfl⟩
  | cons c cs ih =>
    by_cases hr : isRunChar c
    · constructor
      · intro b
        cases b with
        | true => simpa [collapse, hr] using (ih.1 true)
        | false =>
          simp only [collapse, hr, if_true, if_false, Bool.false_eq_true]
          have hdash : isRunChar '-' = true := by decide
          simp [collapse, hdash, ih.2]
      · simpa [collapse, hr] using ih.2
    · constructor
      · intro b
        cases b with
        | true => simp [collapse, hr, ih.1 false]
        | false => simp [collapse, hr, ih.1 false]
      · simp [collapse, hr, ih.1 false]

/-- All characters of a slug are hyphens or lowercase-fixed word
characters; packaged as needed by each no-op stage of a second pass. -/
theorem slug_chars (s : String) :
    ∀ c ∈ (slugify s).data,
      Char.toLower c = c ∧ isPySpace c = false ∧ keepChar c = true := by
  intro c hc
  have hc' : c ∈ collapse false
      ((pyStrip (s.data.map Char.toLower)).filter keepChar) := hc
  rcases mem_collapse _ false hc' with h1 | ⟨h2, h3⟩
  · subst h1
    refine ⟨char_toLower_dash, by decide, by decide⟩
  · have hmemf := h2
    rw [List.mem_filter] at hmemf
    obtain ⟨hmem, hkeep⟩ := hmemf
    have hmem2 := mem_pyStrip hmem
    rw [List.mem_map] at hmem2
    obtain ⟨c0, _, hc0⟩ := hmem2
    constructor
    · rw [← hc0]; exact char_toLower_idem c0
    constructor
    · have : isPySpace c = false := by
        by_contra hsp
        simp only [Bool.not_eq_false] at hsp
        have : isRunChar c = true := by unfold isRunChar; simp [hsp]
        rw [this] at h3; cases h3
      exact this
    · exact hkeep

/-- Claim C9: `slugify` is deterministic (equal inputs give equal
outputs), idempotent on its own output, and maps `"Best Practices!"` to
`"best-practices"`. -/
theorem claim_C9_slugify :
    (∀ s t : String, s = t → slugify s = slugify t) ∧
    (∀ s : String, slugify (slugify s) = slugify s) ∧
    slugify "Best Practices!" = "best-practices" := by
  refine ⟨fun s t h => by rw [h], fun s => ?_, by decide⟩
  have hchars := slug_chars s
  show (⟨collapse false ((pyStrip ((slugify s).data.map Char.toLower)).filter
    keepChar)⟩ : String) = slugify s
  rw [map_eq_self_of (fun c hc => (hchars c hc).1)]
  rw [pyStrip_eq_self_of (fun c hc => (hchars c hc).2.1)]
  rw [List.filter_eq_self.mpr (fun c hc => (hchars c hc).2.2)]
  show (⟨collapse false (collapse false ((pyStrip (s.data.map
    Char.toLower)).filter keepChar))⟩ : String) = slugify s
  rw [(collapse_collapse _).1 false]
  rfl

/-- Witness for C9: idempotence applied at a concrete string. -/
theorem claim_C9_witness :
    slugify (slugify "Custom Tool Config") = slugify "Custom Tool Config" :=
  claim_C9_slugify.2.1 "Custom Tool Config"

/-! ## `generate_summary` (lines 83-151 of the script)

The Gemini client plus `json.loads` of the reply text is one opaque
collaborator `model : String → Nat → Except String JVal`: given the
prompt and the 0-based attempt number it either yields the parsed
structured reply or fails with the exception's string rendering
(`str(e)`), which covers both API errors and malformed-JSON replies.
`time.sleep` is modelled by recording the slept durations in a list. -/

/-- The `prompt_context` line of the prompt. -/
def prompt_context (is_new : Bool) : String :=
  if is_new then "This is a new file." else "Here is the git diff of the changes."

/-- The `task_instructions` block, which differs between new-file mode
and diff mode. -/
def task_instructions (is_new : Bool) : String :=
  if is_new then
    "\n    1. **NEW FILE ADDED.**\n       - Since this is a completely new file, do not break it down into sections.\n       - **Return EXACTLY ONE summary** with the header \"Overview\".\n       - The summary should describe the overall purpose and contents of this new file.\n    "
  else
    "\n    1. **CRITICAL: FILTER TRIVIAL CHANGES.** \n       - Ignore whitespace, typos, formatting (e.g. bold/italic changes), and simple rewording.\n       - **Ignore code block attribute changes** (e.g. removing `theme=\x7b\x7bnull\x7d\x7d` or similar metadata).\n       - Ignore internal meta-data updates or comment changes.\n       - If the changes are trivial as described above: **RETURN AN EMPTY LIST []**.\n    2. If the changes are meaningful:\n       - If broad/many changes: Return ONE summary with header \"Overview\".\n       - If specific changes: Return a list of summaries for each changed section (header).\n    "

/-- The rendered prompt f-string, with `content` truncated to 10000
characters exactly as `content[:10000]` does. -/
def buildPrompt (filename content : String) (is_new : Bool) : String :=
  "\n    You are a tech news editor. Analyze the changes in the \"" ++ filename
    ++ "\" documentation.\n    " ++ prompt_context is_new
    ++ "\n    \n    Task:\n    " ++ task_instructions is_new
    ++ "\n    \n    3. **Write informative properties.** The summary should explain \"what changed\" and \"why it matters\" in Korean. (Max 150 characters).\n    4. Return the result in JSON format.\n    \n    Format example for TRIVIAL changes (RETURN THIS if changes are minor):\n    []\n    \n    Format example for MEANINGFUL changes:\n    [\n        \x7b\n            \"header\": \"Overview\", \n            \"summary\": \"전반적인 내용이 재구성되었으며, 새로운 모범 사례 섹션이 추가되어 더 효율적인 워크플로우를 제안합니다.\"\n        \x7d\n    ]\n    \n    Content/Diff:\n    " ++ content.take 10000 ++ "\n    "

/-- Substring test used by `"429" in error_str`. -/
def listHasSub (needle : List Char) : List Char → Bool
  | [] => needle.isEmpty
  | c :: t => needle.isPrefixOf (c :: t) || listHasSub needle t

/-- Python `"429" in error_str`. -/
def errHas429 (e : String) : Bool := listHasSub "429".data e.data

def max_retries : Nat := 3

/-- The fallback single-summary list returned after the loop (line 151). -/
def fallback_summaries (filename : String) : JVal :=
  .arr [.obj [("header", .str "Overview"),
              ("summary", .str (filename ++ " 문서가 업데이트되었습니다."))]]

/-- Body of `for attempt in range(max_retries)` with the caught-exception
branching of lines 135-149.  The first argument counts the remaining
iterations (`max_retries - attempt`); on success the structured reply is
returned, on failure the loop continues, sleeping `retry_delay` and
doubling it only when the error mentions 429 and a later attempt exists.
Falling off the loop yields the fallback list. -/
def gsLoop (resp : Nat → Except String JVal) (filename : String) :
    Nat → Nat → Nat → JVal × List Nat
  | 0, _, _ => (fallback_summaries filename, [])
  | rem + 1, attempt, retry_delay =>
    match resp attempt with
    | .ok v => (v, [])
    | .error e =>
      if errHas429 e && decide (attempt < max_retries - 1) then
        let r := gsLoop resp filename rem (attempt + 1) (retry_delay * 2)
        (r.1, retry_delay :: r.2)
      else
        gsLoop resp filename rem (attempt + 1) retry_delay

/-- Model of `generate_summary`: build the prompt, then run the retry loop with
`max_retries = 3` and initial `retry_delay = 2`.  Returns the structured
summaries plus the list of sleeps performed. -/
def generate_summary (model : String → Nat → Except String JVal)
    (filename content : String) (is_new : Bool) : JVal × List Nat :=
  gsLoop (model (buildPrompt filename content is_new)) filename max_retries 0 2

/-- Service that fails once with a non-rate-limit error, then succeeds. -/
def c1cex_model : String → Nat → Except String JVal :=
  fun _ k => if k = 0 then .error "boom" else .ok (.arr [])

theorem gsLoop_ok {resp : Nat → Except String JVal} {fn : String}
    {rem attempt d : Nat} {v : JVal} (h : resp attempt = .ok v) :
    gsLoop resp fn (rem + 1) attempt d = (v, []) := by
  rw [gsLoop, h]

theorem gsLoop_err_sleep {resp : Nat → Except String JVal} {fn : String}
    {rem attempt d : Nat} {e : String} (h : resp attempt = Except.error e)
    (hc : errHas429 e = true) (ha : attempt < max_retries - 1) :
    gsLoop resp fn (rem + 1) attempt d =
      ((gsLoop resp fn rem (attempt + 1) (d * 2)).1,
        d :: (gsLoop resp fn rem (attempt + 1) (d * 2)).2) := by
  rw [gsLoop, h]
  simp [hc, ha]

theorem gsLoop_err_go {resp : Nat → Except String JVal} {fn : String}
    {rem attempt d : Nat} {e : String} (h : resp attempt = Except.error e)
    (hc : (errHas429 e && decide (attempt < max_retries - 1)) = false) :
    gsLoop resp fn (rem + 1) attempt d = gsLoop resp fn rem (attempt + 1) d := by
  rw [gsLoop, h]
  simp [hc]

/-- Counterexample to claim C1: a first-attempt failure whose error does
not mention 429 is retried anyway — the second attempt's successful
reply is returned instead of the fallback that exhausting retries
produces. -/
theorem claim_C1_counterexample :
    errHas429 "boom" = false ∧
    generate_summary c1cex_model "api.md" "diff text" false = (.arr [], []) ∧
    (JVal.arr [] : JVal) ≠ fallback_summaries "api.md" := by
  refine ⟨by decide, rfl, ?_⟩
  intro h
  simp [fallback_summaries] at h

/-- Claim C1 as amended: every failed attempt is retried while attempts
remain, whatever the error; only before a retry of a rate-limited
attempt does the loop sleep, 2 time-units then doubling; the first
success is returned.  In particular two rate-limit failures followed by
a success return the successful structured reply. -/
theorem claim_C1_amended :
    ∀ (model : String → Nat → Except String JVal) (fn content : String)
      (is_new : Bool) (e0 e1 : String) (v : JVal),
      model (buildPrompt fn content is_new) 0 = .error e0 →
      model (buildPrompt fn content is_new) 1 = .error e1 →
      model (buildPrompt fn content is_new) 2 = .ok v →
      generate_summary model fn content is_new =
        (v, (if errHas429 e0 then [2] else []) ++
            (if errHas429 e1 then [if errHas429 e0 then 4 else 2] else [])) := by
  intro model fn content is_new e0 e1 v h0 h1 h2
  unfold generate_summary
  show gsLoop (model (buildPrompt fn content is_new)) fn (2 + 1) 0 2 = _
  by_cases c0 : errHas429 e0
  · rw [gsLoop_err_sleep h0 c0 (by decide)]
    show ((gsLoop _ fn (1 + 1) 1 4).1, 2 :: (gsLoop _ fn (1 + 1) 1 4).2) = _
    by_cases c1 : errHas429 e1
    · rw [gsLoop_err_sleep h1 c1 (by decide)]
      show ((gsLoop _ fn (0 + 1) 2 8).1, 2 :: 4 :: (gsLoop _ fn (0 + 1) 2 8).2) = _
      rw [gsLoop_ok h2]
      simp [c0, c1]
    · rw [gsLoop_err_go h1 (by simp [c1])]
      show ((gsLoop _ fn (0 + 1) 2 4).1, 2 :: (gsLoop _ fn (0 + 1) 2 4).2) = _
      rw [gsLoop_ok h2]
      simp [c0, c1]
  · rw [gsLoop_err_go h0 (by simp [c0])]
    show gsLoop _ fn (1 + 1) 1 2 = _
    by_cases c1 : errHas429 e1
    · rw [gsLoop_err_sleep h1 c1 (by decide)]
      show ((gsLoop _ fn (0 + 1) 2 4).1, 2 :: (gsLoop _ fn (0 + 1) 2 4).2) = _
      rw [gsLoop_ok h2]
      simp [c0, c1]
    · rw [gsLoop_err_go h1 (by simp [c1])]
      show gsLoop _ fn (0 + 1) 2 2 = _
      rw [gsLoop_ok h2]
      simp [c0, c1]

/-- Service rate-limited once, then failing plainly, then succeeding. -/
def c1wit_model : String → Nat → Except String JVal :=
  fun _ k =>
    if k = 0 then .error "429 Too Many Requests"
    else if k = 1 then .error "socket closed" else .ok (.arr [])

/-- Witness for the amended C1 at a concrete service behaviour: one
backoff sleep of 2 after the rate-limited first attempt, none after the
plainly failed second attempt, and the third attempt's reply returned. -/
theorem claim_C1_witness :
    generate_summary c1wit_model "hooks.md" "d" false = (.arr [], [2]) := by
  have h := claim_C1_amended c1wit_model "hooks.md" "d" false
    "429 Too Many Requests" "socket closed" (.arr []) rfl rfl rfl
  rw [h]
  rfl

theorem str_empty_append (s : String) : "" ++ s = s := by
  cases s
  rfl

/-- Claim C4: when every attempt fails, `generate_summary` returns the
single-element fallback list, whose only fragment has header "Overview"
and a summary containing the filename. -/
theorem claim_C4_fallback :
    ∀ (model : String → Nat → Except String JVal) (fn content : String)
      (is_new : Bool),
      (∀ k, k < max_retries →
        ∃ e, model (buildPrompt fn content is_new) k = .error e) →
      ∃ s, (generate_summary model fn content is_new).1 =
          .arr [.obj [("header", .str "Overview"), ("summary", .str s)]] ∧
        ∃ pre post, s = pre ++ fn ++ post := by
  intro model fn content is_new hfail
  obtain ⟨e0, h0⟩ := hfail 0 (by decide)
  obtain ⟨e1, h1⟩ := hfail 1 (by decide)
  obtain ⟨e2, h2⟩ := hfail 2 (by decide)
  refine ⟨fn ++ " 문서가 업데이트되었습니다.", ?_, "", " 문서가 업데이트되었습니다.", ?_⟩
  · have hfb : ∀ d : Nat, gsLoop (model (buildPrompt fn content is_new)) fn (0 + 1) 2 d
        = (fallback_summaries fn, []) := by
      intro d
      rw [gsLoop_err_go h2 (by simp [max_retries])]
      rfl
    have h1step : ∀ d : Nat, (gsLoop (model (buildPrompt fn content is_new)) fn (1 + 1) 1 d).1
        = fallback_summaries fn := by
      intro d
      by_cases c1 : errHas429 e1
      · rw [gsLoop_err_sleep h1 c1 (by decide)]
        show (gsLoop _ fn (0 + 1) 2 (d * 2)).1 = _
        rw [hfb]
      · rw [gsLoop_err_go h1 (by simp [c1])]
        rw [hfb]
    show (gsLoop (model (buildPrompt fn content is_new)) fn (2 + 1) 0 2).1 = _
    by_cases c0 : errHas429 e0
    · rw [gsLoop_err_sleep h0 c0 (by decide)]
      show (gsLoop _ fn (1 + 1) 1 4).1 = _
      rw [h1step 4]
      rfl
    · rw [gsLoop_err_go h0 (by simp [c0])]
      rw [h1step 2]
      rfl
  · rw [str_empty_append]

/-- Service failing on every attempt with a server error. -/
def c4wit_model : String → Nat → Except String JVal :=
  fun _ _ => .error "500 internal"

/-- Witness for C4: all three attempts fail concretely, and the result
is the one-element fallback whose summary contains the filename. -/
theorem claim_C4_witness :
    ∃ s, (generate_summary c4wit_model "mcp.md" "x" true).1 =
        .arr [.obj [("header", .str "Overview"), ("summary", .str s)]] ∧
      ∃ pre post, s = pre ++ "mcp.md" ++ post :=
  claim_C4_fallback c4wit_model "mcp.md" "x" true
    (fun _ _ => ⟨"500 internal", rfl⟩)

/-! ## The changelog store (lines 153-208 of the script)

`json.dumps(data, indent=2, ensure_ascii=False)` and `json.loads` are
modelled on the `JVal` fragment the script stores: the printer emits
2-space-indented JSON with non-ASCII characters literal and `"`/`\`/
control characters escaped, exactly as CPython's serializer does on
this fragment; the parser accepts whitespace-separated JSON built from
strings, arrays, objects and `null` and rejects everything else
(Python would raise, which `load_changelog` turns into `[]`). -/

/-- Lowercase hexadecimal digit, as CPython emits in `\uXXXX` escapes. -/
def hexDig (n : Nat) : Char :=
  if n < 10 then Char.ofNat (48 + n) else Char.ofNat (87 + n)

/-- Serialization of one character inside a JSON string under
`ensure_ascii=False`: escape `"`, `\` and control characters (short
escapes for the five common ones, `\u00XX` otherwise), everything else
literal. -/
def escChar (c : Char) : List Char :=
  if c = '"' then ['\\', '"']
  else if c = '\\' then ['\\', '\\']
  else if c = '\x08' then ['\\', 'b']
  else if c = '\t' then ['\\', 't']
  else if c = '\n' then ['\\', 'n']
  else if c = '\x0c' then ['\\', 'f']
  else if c = '\r' then ['\\', 'r']
  else if c.toNat < 32 then
    ['\\', 'u', '0', '0', hexDig (c.toNat / 16), hexDig (c.toNat % 16)]
  else [c]

/-- Body of a serialized JSON string. -/
def escape (s : String) : List Char := (s.data.map escChar).flatten

/-- Indentation: `n` spaces. -/
def sp (n : Nat) : List Char := List.replicate n ' '

mutual

/-- Serializer modelling `json.dumps` with `indent=2`, at current indentation `ind`. -/
def printVal : Nat → JVal → List Char
  | _, .null => ['n', 'u', 'l', 'l']
  | _, .str s => '"' :: (escape s ++ ['"'])
  | _, .arr [] => ['[', ']']
  | ind, .arr (x :: xs) =>
    '[' :: '\n' :: (sp (ind + 2) ++ (printVal (ind + 2) x ++
      (printArrTail (ind + 2) xs ++ ('\n' :: (sp ind ++ [']'])))))
  | _, .obj [] => ['\x7b', '\x7d']
  | ind, .obj ((k, v) :: kvs) =>
    '\x7b' :: '\n' :: (sp (ind + 2) ++ (printKV (ind + 2) k v ++
      (printObjTail (ind + 2) kvs ++ ('\n' :: (sp ind ++ ['\x7d'])))))

/-- One `"key": value` item of a serialized object. -/
def printKV : Nat → String → JVal → List Char
  | ind, k, v => '"' :: (escape k ++ ('"' :: ':' :: ' ' :: printVal ind v))

/-- Second and later array items, each preceded by `,\n` + indent. -/
def printArrTail : Nat → List JVal → List Char
  | _, [] => []
  | ind, x :: xs => ',' :: '\n' :: (sp ind ++ (printVal ind x ++ printArrTail ind xs))

/-- Second and later object items, each preceded by `,\n` + indent. -/
def printObjTail : Nat → List (String × JVal) → List Char
  | _, [] => []
  | ind, (k, v) :: kvs => ',' :: '\n' :: (sp ind ++ (printKV ind k v ++ printObjTail ind kvs))

end

/-- JSON whitespace skipped between tokens by the parser. -/
def isJsonWs (c : Char) : Bool := c = ' ' || c = '\t' || c = '\n' || c = '\r'

/-- Skip JSON whitespace. -/
def skipWs : List Char → List Char
  | [] => []
  | c :: cs => if isJsonWs c then skipWs cs else c :: cs

/-- Value of one hexadecimal digit. -/
def hexV (c : Char) : Option Nat :=
  if '0' ≤ c ∧ c ≤ '9' then some (c.toNat - 48)
  else if 'a' ≤ c ∧ c ≤ 'f' then some (c.toNat - 87)
  else if 'A' ≤ c ∧ c ≤ 'F' then some (c.toNat - 55)
  else none

/-- Single-character JSON escapes. -/
def unescChar (c : Char) : Option Char :=
  if c = '"' then some '"'
  else if c = '\\' then some '\\'
  else if c = '/' then some '/'
  else if c = 'b' then some '\x08'
  else if c = 'f' then some '\x0c'
  else if c = 'n' then some '\n'
  else if c = 'r' then some '\r'
  else if c = 't' then some '\t'
  else none

mutual

/-- Parse the body of a JSON string after its opening quote, with an
accumulator of characters read so far (in reverse); `parseStrEsc`
handles the character after a backslash and `parseHex4` the four hex
digits of a `\u` escape. -/
def parseStrAux : List Char → List Char → Option (List Char × List Char)
  | _, [] => none
  | acc, c :: cs =>
    if c = '"' then some (acc.reverse, cs)
    else if c = '\\' then parseStrEsc acc cs
    else parseStrAux (c :: acc) cs

def parseStrEsc : List Char → List Char → Option (List Char × List Char)
  | _, [] => none
  | acc, d :: cs2 =>
    if d = 'u' then parseHex4 acc cs2
    else
      match unescChar d with
      | some e => parseStrAux (e :: acc) cs2
      | none => none

def parseHex4 : List Char → List Char → Option (List Char × List Char)
  | acc, h1 :: h2 :: h3 :: h4 :: cs3 =>
    match hexV h1, hexV h2, hexV h3, hexV h4 with
    | some a, some b, some x, some y =>
      parseStrAux (Char.ofNat (4096 * a + 256 * b + 16 * x + y) :: acc) cs3
    | _, _, _, _ => none
  | _, _ => none

end


mutual

/-- Fuel-indexed JSON value parser (the fragment `json.loads` needs for
this store); returns the value and the unconsumed input. -/
def parseVal : Nat → List Char → Option (JVal × List Char)
  | 0, _ => none
  | fuel + 1, cs =>
    match skipWs cs with
    | [] => none
    | c :: cs1 =>
      if c = '"' then
        match parseStrAux [] cs1 with
        | some (l, rest) => some (.str ⟨l⟩, rest)
        | none => none
      else if c = '[' then
        match skipWs cs1 with
        | ']' :: rest => some (.arr [], rest)
        | _ =>
          match parseArrItems fuel cs1 with
          | some (xs, rest) => some (.arr xs, rest)
          | none => none
      else if c = '\x7b' then
        match skipWs cs1 with
        | '\x7d' :: rest => some (.obj [], rest)
        | _ =>
          match parseObjItems fuel cs1 with
          | some (kvs, rest) => some (.obj kvs, rest)
          | none => none
      else if c = 'n' then
        match cs1 with
        | 'u' :: 'l' :: 'l' :: rest => some (.null, rest)
        | _ => none
      else none

/-- Items of a nonempty array, consuming the closing bracket. -/
def parseArrItems : Nat → List Char → Option (List JVal × List Char)
  | 0, _ => none
  | fuel + 1, cs =>
    match parseVal fuel cs with
    | none => none
    | some (v, rest) =>
      match skipWs rest with
      | ',' :: rest2 =>
        match parseArrItems fuel rest2 with
        | some (vs, rest3) => some (v :: vs, rest3)
        | none => none
      | ']' :: rest2 => some ([v], rest2)
      | _ => none

/-- Items of a nonempty object, consuming the closing brace. -/
def parseObjItems : Nat → List Char → Option (List (String × JVal) × List Char)
  | 0, _ => none
  | fuel + 1, cs =>
    match skipWs cs with
    | '"' :: cs1 =>
      match parseStrAux [] cs1 with
      | some (k, rest) =>
        match skipWs rest with
        | ':' :: rest2 =>
          match parseVal fuel rest2 with
          | some (v, rest3) =>
            match skipWs rest3 with
            | ',' :: rest4 =>
              match parseObjItems fuel rest4 with
              | some (kvs, rest5) => some ((⟨k⟩, v) :: kvs, rest5)
              | none => none
            | '\x7d' :: rest4 => some ([(⟨k⟩, v)], rest4)
            | _ => none
          | none => none
        | _ => none
      | none => none
    | _ => none

end

/-- Model of `json.dumps(v, indent=2, ensure_ascii=False)`. -/
def dumps (v : JVal) : String := ⟨printVal 0 v⟩

/-- Model of `json.loads`: parse one value and require only whitespace after it. -/
def jloads (s : String) : Option JVal :=
  match parseVal (s.data.length + 1) s.data with
  | some (v, rest) => if (skipWs rest).isEmpty then some v else none
  | none => none

/-- The on-disk state the store touches: the contents of
`pages/changelog.json`, or `none` when the file does not exist. -/
structure Store where
  changelog_json : Option String

/-- Model of `load_changelog` (lines 156-162): a missing file or unparsable
contents give the empty history `[]`. -/
def load_changelog (st : Store) : JVal :=
  match st.changelog_json with
  | none => .arr []
  | some s =>
    match jloads s with
    | some v => v
    | none => .arr []

/-- Model of `save_changelog` (lines 164-167): serialize with
`indent=2, ensure_ascii=False` and overwrite the file.  The `mkdir` of
the containing directory has no observable effect on this state. -/
def save_changelog (data : JVal) (st : Store) : Store :=
  { st with changelog_json := some (dumps data) }

/-- The batch dict built at lines 198-202. -/
def new_entry (date_str : String) (commit_hash : Option String)
    (updates : List JVal) : JVal :=
  .obj [("date", .str date_str),
        ("commit_hash", match commit_hash with | some h => .str h | none => .null),
        ("entries", .arr updates)]

/-- Model of `update_json_data` (lines 183-208).  The collaborators are
`commit_date` (modelling `get_commit_date`, whose internal failure
fallback to the current time is part of the opaque function) and `now`
(modelling `datetime.now(timezone.utc).isoformat()`).  Returns `none`
where Python would raise, namely `history.insert(0, ...)` on a
non-list history. -/
def update_json_data (updates : List JVal) (commit_hash : Option String)
    (now : String) (commit_date : String → String) (st : Store) :
    Option (JVal × Store) :=
  if updates.isEmpty then some (load_changelog st, st)
  else
    let history := load_changelog st
    let date_str := match commit_hash with | some h => commit_date h | none => now
    match history with
    | .arr hs =>
      let history2 := JVal.arr (new_entry date_str commit_hash updates :: hs)
      some (history2, save_changelog history2 st)
    | _ => none

/-! ### Round-trip of the serializer: whitespace and string lemmas -/

theorem string_mk_data (s : String) : (⟨s.data⟩ : String) = s := by
  cases s
  rfl

theorem skipWs_cons_not_ws {c : Char} {cs : List Char}
    (h : isJsonWs c = false) : skipWs (c :: cs) = c :: cs := by
  simp [skipWs, h]

theorem skipWs_append_ws {w : List Char} (hw : ∀ c ∈ w, isJsonWs c = true) :
    ∀ cs : List Char, skipWs (w ++ cs) = skipWs cs := by
  induction w with
  | nil => intro cs; rfl
  | cons a t ih =>
    intro cs
    have ha := hw a (List.mem_cons_self a t)
    simp only [List.cons_append, skipWs, ha, if_true]
    exact ih (fun c hc => hw c (List.mem_cons_of_mem _ hc)) cs

theorem sp_ws {n : Nat} : ∀ c ∈ sp n, isJsonWs c = true := by
  intro c hc
  rw [sp, List.mem_replicate] at hc
  rw [hc.2]
  decide

theorem nl_sp_ws {n : Nat} : ∀ c ∈ '\n' :: sp n, isJsonWs c = true := by
  intro c hc
  rcases List.mem_cons.mp hc with h | h
  · rw [h]; decide
  · exact sp_ws c h

theorem parseVal_congr {cs cs2 : List Char} (h : skipWs cs = skipWs cs2) :
    ∀ fuel : Nat, parseVal fuel cs = parseVal fuel cs2 := by
  intro fuel
  cases fuel with
  | zero => rfl
  | succ f => rw [parseVal, parseVal, h]

theorem parseObjItems_congr {cs cs2 : List Char} (h : skipWs cs = skipWs cs2) :
    ∀ fuel : Nat, parseObjItems fuel cs = parseObjItems fuel cs2 := by
  intro fuel
  cases fuel with
  | zero => rfl
  | succ f => rw [parseObjItems, parseObjItems, h]

/-- A hex digit emitted by the printer reads back to its value. -/
theorem hexV_hexDig {m : Nat} (h : m < 16) : hexV (hexDig m) = some m := by
  interval_cases m <;> decide


theorem parseStrAux_quote (acc cs : List Char) :
    parseStrAux acc ('"' :: cs) = some (acc.reverse, cs) := by
  simp [parseStrAux]

theorem parseStrAux_lit {c : Char} (h1 : c ≠ '"') (h2 : c ≠ '\\')
    (acc cs : List Char) : parseStrAux acc (c :: cs) = parseStrAux (c :: acc) cs := by
  simp [parseStrAux, h1, h2]

theorem parseStrAux_unesc {d e : Char} (hd : d ≠ 'u') (he : unescChar d = some e)
    (acc cs2 : List Char) :
    parseStrAux acc ('\\' :: d :: cs2) = parseStrAux (e :: acc) cs2 := by
  simp [parseStrAux, parseStrEsc, hd, he]

theorem parseStrAux_u00 {h3 h4 : Char} {x y : Nat} (hx : hexV h3 = some x)
    (hy : hexV h4 = some y) (acc cs3 : List Char) :
    parseStrAux acc ('\\' :: 'u' :: '0' :: '0' :: h3 :: h4 :: cs3)
      = parseStrAux (Char.ofNat (16 * x + y) :: acc) cs3 := by
  simp [parseStrAux, parseStrEsc, parseHex4, hx, hy, show hexV '0' = some 0 from rfl]

/-- Parsing reads back exactly what `escChar`-escaping wrote. -/
theorem parseStrAux_escape :
    ∀ (l acc rest : List Char),
      parseStrAux acc ((l.map escChar).flatten ++ ('"' :: rest)) =
        some (acc.reverse ++ l, rest) := by
  intro l
  induction l with
  | nil =>
    intro acc rest
    simp [parseStrAux_quote]
  | cons c l ih =>
    intro acc rest
    simp only [List.map_cons, List.flatten_cons, List.append_assoc]
    by_cases h1 : c = '"'
    · subst h1
      rw [show escChar '"' = ['\\', '"'] from by decide]
      simp only [List.cons_append, List.nil_append]
      rw [parseStrAux_unesc (by decide) (by decide : unescChar '"' = some '"'), ih]
      simp
    · by_cases h2 : c = '\\'
      · subst h2
        rw [show escChar '\\' = ['\\', '\\'] from by decide]
        simp only [List.cons_append, List.nil_append]
        rw [parseStrAux_unesc (by decide) (by decide : unescChar '\\' = some '\\'), ih]
        simp
      · by_cases h3 : c = '\x08'
        · subst h3
          rw [show escChar '\x08' = ['\\', 'b'] from by decide]
          simp only [List.cons_append, List.nil_append]
          rw [parseStrAux_unesc (by decide) (by decide : unescChar 'b' = some '\x08'), ih]
          simp
        · by_cases h4 : c = '\t'
          · subst h4
            rw [show escChar '\t' = ['\\', 't'] from by decide]
            simp only [List.cons_append, List.nil_append]
            rw [parseStrAux_unesc (by decide) (by decide : unescChar 't' = some '\t'), ih]
            simp
          · by_cases h5 : c = '\n'
            · subst h5
              rw [show escChar '\n' = ['\\', 'n'] from by decide]
              simp only [List.cons_append, List.nil_append]
              rw [parseStrAux_unesc (by decide) (by decide : unescChar 'n' = some '\n'), ih]
              simp
            · by_cases h6 : c = '\x0c'
              · subst h6
                rw [show escChar '\x0c' = ['\\', 'f'] from by decide]
                simp only [List.cons_append, List.nil_append]
                rw [parseStrAux_unesc (by decide) (by decide : unescChar 'f' = some '\x0c'), ih]
                simp
              · by_cases h7 : c = '\r'
                · subst h7
                  rw [show escChar '\r' = ['\\', 'r'] from by decide]
                  simp only [List.cons_append, List.nil_append]
                  rw [parseStrAux_unesc (by decide) (by decide : unescChar 'r' = some '\r'), ih]
                  simp
                · by_cases h8 : c.toNat < 32
                  · have ht16 : c.toNat / 16 < 16 := by omega
                    have hm16 : c.toNat % 16 < 16 := by omega
                    rw [show escChar c = ['\\', 'u', '0', '0', hexDig (c.toNat / 16),
                        hexDig (c.toNat % 16)] from by
                      simp [escChar, h1, h2, h3, h4, h5, h6, h7, h8]]
                    simp only [List.cons_append, List.nil_append]
                    rw [parseStrAux_u00 (hexV_hexDig ht16) (hexV_hexDig hm16)]
                    rw [show 16 * (c.toNat / 16) + c.toNat % 16 = c.toNat from by omega,
                      Char.ofNat_toNat, ih]
                    simp
                  · rw [show escChar c = [c] from by
                      simp [escChar, h1, h2, h3, h4, h5, h6, h7, h8]]
                    simp only [List.cons_append, List.nil_append]
                    rw [parseStrAux_lit h1 h2, ih]
                    simp

/-! ### Single-step dispatch lemmas for the value parser -/

theorem parseVal_quote_of {f : Nat} {X l rest' : List Char}
    (h : parseStrAux [] X = some (l, rest')) :
    parseVal (f + 1) ('"' :: X) = some (.str ⟨l⟩, rest') := by
  rw [parseVal, skipWs_cons_not_ws (by decide)]
  simp [h]

theorem parseVal_null {f : Nat} {rest : List Char} :
    parseVal (f + 1) ('n' :: 'u' :: 'l' :: 'l' :: rest) = some (.null, rest) := by
  rw [parseVal, skipWs_cons_not_ws (by decide)]
  simp

theorem parseVal_arrNil {f : Nat} {rest : List Char} :
    parseVal (f + 1) ('[' :: ']' :: rest) = some (.arr [], rest) := by
  rw [parseVal, skipWs_cons_not_ws (by decide)]
  simp [skipWs_cons_not_ws (by decide : isJsonWs ']' = false)]

theorem parseVal_arr_go {f : Nat} {X Y : List Char} {c0 : Char}
    (hX : skipWs X = c0 :: Y) (hc0 : c0 ≠ ']') {xs : List JVal}
    {rest' : List Char} (h : parseArrItems f X = some (xs, rest')) :
    parseVal (f + 1) ('[' :: X) = some (.arr xs, rest') := by
  rw [parseVal, skipWs_cons_not_ws (by decide)]
  simp [hX, hc0, h]

theorem parseVal_objNil {f : Nat} {rest : List Char} :
    parseVal (f + 1) ('\x7b' :: '\x7d' :: rest) = some (.obj [], rest) := by
  rw [parseVal, skipWs_cons_not_ws (by decide)]
  simp [skipWs_cons_not_ws (by decide : isJsonWs '\x7d' = false)]

theorem parseVal_obj_go {f : Nat} {X Y : List Char} {c0 : Char}
    (hX : skipWs X = c0 :: Y) (hc0 : c0 ≠ '\x7d')
    {kvs : List (String × JVal)} {rest' : List Char}
    (h : parseObjItems f X = some (kvs, rest')) :
    parseVal (f + 1) ('\x7b' :: X) = some (.obj kvs, rest') := by
  rw [parseVal, skipWs_cons_not_ws (by decide)]
  simp [hX, hc0, h]

theorem parseArrItems_last {f : Nat} {cs R r2 : List Char} {v : JVal}
    (hv : parseVal f cs = some (v, R)) (hR : skipWs R = ']' :: r2) :
    parseArrItems (f + 1) cs = some ([v], r2) := by
  rw [parseArrItems, hv]
  simp [hR]

theorem parseArrItems_more {f : Nat} {cs R r2 r3 : List Char} {v : JVal}
    {vs : List JVal} (hv : parseVal f cs = some (v, R))
    (hR : skipWs R = ',' :: r2) (hrec : parseArrItems f r2 = some (vs, r3)) :
    parseArrItems (f + 1) cs = some (v :: vs, r3) := by
  rw [parseArrItems, hv]
  simp [hR, hrec]

theorem parseObjItems_last {f : Nat} {cs cs1 kl R r2 r3 r4 : List Char} {v : JVal}
    (hcs : skipWs cs = '"' :: cs1) (hk : parseStrAux [] cs1 = some (kl, R))
    (hcol : skipWs R = ':' :: r2) (hv : parseVal f r2 = some (v, r3))
    (hend : skipWs r3 = '\x7d' :: r4) :
    parseObjItems (f + 1) cs = some ([(⟨kl⟩, v)], r4) := by
  rw [parseObjItems, hcs]
  simp [hk, hcol, hv, hend]

theorem parseObjItems_more {f : Nat} {cs cs1 kl R r2 r3 r4 r5 : List Char}
    {v : JVal} {kvs : List (String × JVal)}
    (hcs : skipWs cs = '"' :: cs1) (hk : parseStrAux [] cs1 = some (kl, R))
    (hcol : skipWs R = ':' :: r2) (hv : parseVal f r2 = some (v, r3))
    (hmore : skipWs r3 = ',' :: r4)
    (hrec : parseObjItems f r4 = some (kvs, r5)) :
    parseObjItems (f + 1) cs = some ((⟨kl⟩, v) :: kvs, r5) := by
  rw [parseObjItems, hcs]
  simp [hk, hcol, hv, hmore, hrec]

/-- The first character a printed value emits: never whitespace, never a
closing bracket. -/
theorem printVal_head (ind : Nat) (v : JVal) :
    ∃ (c : Char) (Y : List Char), printVal ind v = c :: Y ∧
      isJsonWs c = false ∧ c ≠ ']' ∧ c ≠ '\x7d' := by
  cases v with
  | null =>
    have h : printVal ind .null = 'n' :: ['u', 'l', 'l'] := by rw [printVal]
    exact ⟨_, _, h, by decide, by decide, by decide⟩
  | str s =>
    have h : printVal ind (.str s) = '"' :: (escape s ++ ['"']) := by rw [printVal]
    exact ⟨_, _, h, by decide, by decide, by decide⟩
  | arr xs =>
    cases xs with
    | nil =>
      have h : printVal ind (.arr []) = '[' :: [']'] := by rw [printVal]
      exact ⟨_, _, h, by decide, by decide, by decide⟩
    | cons x t =>
      have h : printVal ind (.arr (x :: t)) = '[' :: ('\n' :: (sp (ind + 2) ++
          (printVal (ind + 2) x ++ (printArrTail (ind + 2) t ++
            ('\n' :: (sp ind ++ [']'])))))) := by rw [printVal]
      exact ⟨_, _, h, by decide, by decide, by decide⟩
  | obj kvs =>
    cases kvs with
    | nil =>
      have h : printVal ind (.obj []) = '\x7b' :: ['\x7d'] := by rw [printVal]
      exact ⟨_, _, h, by decide, by decide, by decide⟩
    | cons kv t =>
      obtain ⟨k, v⟩ := kv
      have h : printVal ind (.obj ((k, v) :: t)) = '\x7b' :: ('\n' :: (sp (ind + 2) ++
          (printKV (ind + 2) k v ++ (printObjTail (ind + 2) t ++
            ('\n' :: (sp ind ++ ['\x7d'])))))) := by rw [printVal]
      exact ⟨_, _, h, by decide, by decide, by decide⟩

mutual

/-- Fuel adequate for parsing a printed value back. -/
def jsizeF : JVal → Nat
  | .null => 1
  | .str _ => 1
  | .arr xs => 1 + itemsF xs
  | .obj kvs => 1 + kitemsF kvs

/-- Fuel adequate for parsing a printed array tail back. -/
def itemsF : List JVal → Nat
  | [] => 1
  | x :: xs => 1 + jsizeF x + itemsF xs

/-- Fuel adequate for parsing a printed object tail back. -/
def kitemsF : List (String × JVal) → Nat
  | [] => 1
  | (_, v) :: kvs => 1 + jsizeF v + kitemsF kvs

end

theorem jsizeF_pos (v : JVal) : 1 ≤ jsizeF v := by
  cases v <;> simp [jsizeF]

theorem itemsF_pos (xs : List JVal) : 1 ≤ itemsF xs := by
  cases xs with
  | nil => simp [itemsF]
  | cons x t => simp [itemsF]; omega

theorem kitemsF_pos (kvs : List (String × JVal)) : 1 ≤ kitemsF kvs := by
  cases kvs with
  | nil => simp [kitemsF]
  | cons kv t =>
    obtain ⟨k, v⟩ := kv
    simp [kitemsF]
    omega

theorem skipWs_nlsp (n : Nat) (Z : List Char) :
    skipWs ('\n' :: (sp n ++ Z)) = skipWs Z := by
  have h : ('\n' :: (sp n ++ Z)) = (('\n' :: sp n) ++ Z) := by simp
  rw [h, skipWs_append_ws nl_sp_ws]

theorem parseStrAux_escape_nil (s : String) (rest : List Char) :
    parseStrAux [] (escape s ++ ('"' :: rest)) = some (s.data, rest) := by
  rw [escape]
  have h := parseStrAux_escape s.data [] rest
  simpa using h

/-- Round-trip of the serializer: with fuel at least the size measure,
parsing a printed value (or printed item tail, embedded in its
surrounding whitespace and closing bracket) consumes exactly the
printed text and returns the original value. -/
theorem parse_print : ∀ fuel : Nat,
    (∀ (v : JVal) (ind : Nat) (rest : List Char), jsizeF v ≤ fuel →
      parseVal fuel (printVal ind v ++ rest) = some (v, rest)) ∧
    (∀ (x : JVal) (xs : List JVal) (ind : Nat) (rest wpre wpost : List Char),
      (∀ c ∈ wpre, isJsonWs c = true) → (∀ c ∈ wpost, isJsonWs c = true) →
      itemsF (x :: xs) ≤ fuel →
      parseArrItems fuel
        (wpre ++ (printVal ind x ++ (printArrTail ind xs ++ (wpost ++ (']' :: rest)))))
        = some (x :: xs, rest)) ∧
    (∀ (k : String) (v : JVal) (kvs : List (String × JVal)) (ind : Nat)
        (rest wpre wpost : List Char),
      (∀ c ∈ wpre, isJsonWs c = true) → (∀ c ∈ wpost, isJsonWs c = true) →
      kitemsF ((k, v) :: kvs) ≤ fuel →
      parseObjItems fuel
        (wpre ++ (printKV ind k v ++ (printObjTail ind kvs ++ (wpost ++ ('\x7d' :: rest)))))
        = some ((k, v) :: kvs, rest)) := by
  intro fuel
  induction fuel with
  | zero =>
    refine ⟨?_, ?_, ?_⟩
    · intro v ind rest hsz
      have := jsizeF_pos v
      omega
    · intro x xs ind rest wpre wpost hw1 hw2 hsz
      have := itemsF_pos (x :: xs)
      omega
    · intro k v kvs ind rest wpre wpost hw1 hw2 hsz
      have := kitemsF_pos ((k, v) :: kvs)
      omega
  | succ f ih =>
    obtain ⟨ihV, ihA, ihO⟩ := ih
    refine ⟨?_, ?_, ?_⟩
    · intro v ind rest hsz
      cases v with
      | null =>
        rw [show printVal ind .null = ['n', 'u', 'l', 'l'] from by rw [printVal]]
        simp only [List.cons_append, List.nil_append]
        exact parseVal_null
      | str s =>
        rw [show printVal ind (.str s) = '"' :: (escape s ++ ['"']) from by rw [printVal]]
        simp only [List.cons_append, List.append_assoc, List.singleton_append,
          List.nil_append]
        rw [parseVal_quote_of (parseStrAux_escape_nil s rest)]
      | arr xs =>
        cases xs with
        | nil =>
          rw [show printVal ind (.arr []) = ['[', ']'] from by rw [printVal]]
          simp only [List.cons_append, List.nil_append]
          exact parseVal_arrNil
        | cons x t =>
          have hb : itemsF (x :: t) ≤ f := by
            rw [show jsizeF (.arr (x :: t)) = 1 + itemsF (x :: t) from by rw [jsizeF]] at hsz
            omega
          rw [show printVal ind (.arr (x :: t)) = '[' :: ('\n' :: (sp (ind + 2) ++
              (printVal (ind + 2) x ++ (printArrTail (ind + 2) t ++
                ('\n' :: (sp ind ++ [']'])))))) from by rw [printVal]]
          simp only [List.cons_append, List.append_assoc, List.singleton_append]
          obtain ⟨c0, Y0, hpr, hnws, hne1, hne2⟩ := printVal_head (ind + 2) x
          have hitems : parseArrItems f ('\n' :: (sp (ind + 2) ++ (printVal (ind + 2) x ++
              (printArrTail (ind + 2) t ++ ('\n' :: (sp ind ++ (']' :: rest))))))) =
              some (x :: t, rest) := by
            have h := ihA x t (ind + 2) rest ('\n' :: sp (ind + 2)) ('\n' :: sp ind)
              nl_sp_ws nl_sp_ws hb
            simpa only [List.cons_append, List.append_assoc] using h
          have hX : skipWs ('\n' :: (sp (ind + 2) ++ (printVal (ind + 2) x ++
              (printArrTail (ind + 2) t ++ ('\n' :: (sp ind ++ (']' :: rest))))))) =
              c0 :: (Y0 ++ (printArrTail (ind + 2) t ++ ('\n' :: (sp ind ++ (']' :: rest))))) := by
            rw [skipWs_nlsp, hpr, List.cons_append, skipWs_cons_not_ws hnws]
          exact parseVal_arr_go hX hne1 hitems
      | obj kvs =>
        cases kvs with
        | nil =>
          rw [show printVal ind (.obj []) = ['\x7b', '\x7d'] from by rw [printVal]]
          simp only [List.cons_append, List.nil_append]
          exact parseVal_objNil
        | cons kv t =>
          obtain ⟨k, v⟩ := kv
          have hb : kitemsF ((k, v) :: t) ≤ f := by
            rw [show jsizeF (.obj ((k, v) :: t)) = 1 + kitemsF ((k, v) :: t) from by
              rw [jsizeF]] at hsz
            omega
          rw [show printVal ind (.obj ((k, v) :: t)) = '\x7b' :: ('\n' :: (sp (ind + 2) ++
              (printKV (ind + 2) k v ++ (printObjTail (ind + 2) t ++
                ('\n' :: (sp ind ++ ['\x7d'])))))) from by rw [printVal]]
          simp only [List.cons_append, List.append_assoc, List.singleton_append]
          have hpk : printKV (ind + 2) k v = '"' :: (escape k ++ ('"' :: ':' :: ' ' ::
              printVal (ind + 2) v)) := by rw [printKV]
          have hitems : parseObjItems f ('\n' :: (sp (ind + 2) ++ (printKV (ind + 2) k v ++
              (printObjTail (ind + 2) t ++ ('\n' :: (sp ind ++ ('\x7d' :: rest))))))) =
              some ((k, v) :: t, rest) := by
            have h := ihO k v t (ind + 2) rest ('\n' :: sp (ind + 2)) ('\n' :: sp ind)
              nl_sp_ws nl_sp_ws hb
            simpa only [List.cons_append, List.append_assoc] using h
          have hX : skipWs ('\n' :: (sp (ind + 2) ++ (printKV (ind + 2) k v ++
              (printObjTail (ind + 2) t ++ ('\n' :: (sp ind ++ ('\x7d' :: rest))))))) =
              '"' :: (escape k ++ ('"' :: ':' :: ' ' :: (printVal (ind + 2) v ++
                (printObjTail (ind + 2) t ++ ('\n' :: (sp ind ++ ('\x7d' :: rest))))))) := by
            rw [skipWs_nlsp, hpk]
            simp only [List.cons_append, List.append_assoc]
            rw [skipWs_cons_not_ws (by decide)]
          exact parseVal_obj_go hX (by decide) hitems
    · intro x xs ind rest wpre wpost hwpre hwpost hb
      have hjx : jsizeF x ≤ f := by
        have h1 := itemsF_pos xs
        rw [show itemsF (x :: xs) = 1 + jsizeF x + itemsF xs from by rw [itemsF]] at hb
        omega
      have hv : parseVal f (wpre ++ (printVal ind x ++ (printArrTail ind xs ++
          (wpost ++ (']' :: rest))))) =
          some (x, printArrTail ind xs ++ (wpost ++ (']' :: rest))) := by
        rw [parseVal_congr (skipWs_append_ws hwpre _) f]
        exact ihV x ind _ hjx
      cases xs with
      | nil =>
        have hR : skipWs (printArrTail ind [] ++ (wpost ++ (']' :: rest))) = ']' :: rest := by
          rw [show printArrTail ind [] = [] from by rw [printArrTail], List.nil_append,
            skipWs_append_ws hwpost, skipWs_cons_not_ws (by decide)]
        exact parseArrItems_last hv hR
      | cons x2 t2 =>
        have hb2 : itemsF (x2 :: t2) ≤ f := by
          have hp := jsizeF_pos x
          rw [show itemsF (x :: x2 :: t2) = 1 + jsizeF x + itemsF (x2 :: t2) from by
            rw [itemsF]] at hb
          omega
        have htail : printArrTail ind (x2 :: t2) = ',' :: ('\n' :: (sp ind ++
            (printVal ind x2 ++ printArrTail ind t2))) := by rw [printArrTail]
        have hR : skipWs (printArrTail ind (x2 :: t2) ++ (wpost ++ (']' :: rest))) =
            ',' :: ('\n' :: (sp ind ++ (printVal ind x2 ++ (printArrTail ind t2 ++
              (wpost ++ (']' :: rest)))))) := by
          rw [htail]
          simp only [List.cons_append, List.append_assoc]
          rw [skipWs_cons_not_ws (by decide)]
        have hrec : parseArrItems f ('\n' :: (sp ind ++ (printVal ind x2 ++
            (printArrTail ind t2 ++ (wpost ++ (']' :: rest)))))) =
            some (x2 :: t2, rest) := by
          have h := ihA x2 t2 ind rest ('\n' :: sp ind) wpost nl_sp_ws hwpost hb2
          simpa only [List.cons_append, List.append_assoc] using h
        exact parseArrItems_more hv hR hrec
    · intro k v kvs ind rest wpre wpost hwpre hwpost hb
      have hjv : jsizeF v ≤ f := by
        have h1 := kitemsF_pos kvs
        rw [show kitemsF ((k, v) :: kvs) = 1 + jsizeF v + kitemsF kvs from by
          rw [kitemsF]] at hb
        omega
      have hpk : printKV ind k v = '"' :: (escape k ++ ('"' :: ':' :: ' ' ::
          printVal ind v)) := by rw [printKV]
      have hcs : skipWs (wpre ++ (printKV ind k v ++ (printObjTail ind kvs ++
          (wpost ++ ('\x7d' :: rest))))) =
          '"' :: (escape k ++ ('"' :: ':' :: ' ' :: (printVal ind v ++
            (printObjTail ind kvs ++ (wpost ++ ('\x7d' :: rest)))))) := by
        rw [skipWs_append_ws hwpre, hpk]
        simp only [List.cons_append, List.append_assoc]
        rw [skipWs_cons_not_ws (by decide)]
      have hk : parseStrAux [] (escape k ++ ('"' :: ':' :: ' ' :: (printVal ind v ++
          (printObjTail ind kvs ++ (wpost ++ ('\x7d' :: rest)))))) =
          some (k.data, ':' :: ' ' :: (printVal ind v ++ (printObjTail ind kvs ++
            (wpost ++ ('\x7d' :: rest))))) := by
        exact parseStrAux_escape_nil k
          (':' :: ' ' :: (printVal ind v ++ (printObjTail ind kvs ++
            (wpost ++ ('\x7d' :: rest)))))
      have hcol : skipWs (':' :: ' ' :: (printVal ind v ++ (printObjTail ind kvs ++
          (wpost ++ ('\x7d' :: rest))))) =
          ':' :: (' ' :: (printVal ind v ++ (printObjTail ind kvs ++
            (wpost ++ ('\x7d' :: rest))))) := skipWs_cons_not_ws (by decide)
      have hv2 : parseVal f (' ' :: (printVal ind v ++ (printObjTail ind kvs ++
          (wpost ++ ('\x7d' :: rest))))) =
          some (v, printObjTail ind kvs ++ (wpost ++ ('\x7d' :: rest))) := by
        have hcg : skipWs (' ' :: (printVal ind v ++ (printObjTail ind kvs ++
            (wpost ++ ('\x7d' :: rest))))) =
            skipWs (printVal ind v ++ (printObjTail ind kvs ++
              (wpost ++ ('\x7d' :: rest)))) := by
          show skipWs ([' '] ++ (printVal ind v ++ (printObjTail ind kvs ++
            (wpost ++ ('\x7d' :: rest))))) = _
          rw [skipWs_append_ws (by
            intro c hc
            simp at hc
            rw [hc]
            rfl)]
        rw [parseVal_congr hcg f]
        exact ihV v ind _ hjv
      cases kvs with
      | nil =>
        have hend : skipWs (printObjTail ind [] ++ (wpost ++ ('\x7d' :: rest))) =
            '\x7d' :: rest := by
          rw [show printObjTail ind [] = [] from by rw [printObjTail], List.nil_append,
            skipWs_append_ws hwpost, skipWs_cons_not_ws (by decide)]
        have h := parseObjItems_last hcs hk hcol hv2 hend
        rw [h]
      | cons kv2 t2 =>
        obtain ⟨k2, v2⟩ := kv2
        have hb2 : kitemsF ((k2, v2) :: t2) ≤ f := by
          have hp := jsizeF_pos v
          rw [show kitemsF ((k, v) :: (k2, v2) :: t2) = 1 + jsizeF v +
            kitemsF ((k2, v2) :: t2) from by rw [kitemsF]] at hb
          omega
        have htail : printObjTail ind ((k2, v2) :: t2) = ',' :: ('\n' :: (sp ind ++
            (printKV ind k2 v2 ++ printObjTail ind t2))) := by rw [printObjTail]
        have hmore : skipWs (printObjTail ind ((k2, v2) :: t2) ++
            (wpost ++ ('\x7d' :: rest))) =
            ',' :: ('\n' :: (sp ind ++ (printKV ind k2 v2 ++ (printObjTail ind t2 ++
              (wpost ++ ('\x7d' :: rest)))))) := by
          rw [htail]
          simp only [List.cons_append, List.append_assoc]
          rw [skipWs_cons_not_ws (by decide)]
        have hrec : parseObjItems f ('\n' :: (sp ind ++ (printKV ind k2 v2 ++
            (printObjTail ind t2 ++ (wpost ++ ('\x7d' :: rest)))))) =
            some ((k2, v2) :: t2, rest) := by
          have h := ihO k2 v2 t2 ind rest ('\n' :: sp ind) wpost nl_sp_ws hwpost hb2
          simpa only [List.cons_append, List.append_assoc] using h
        have h := parseObjItems_more hcs hk hcol hv2 hmore hrec
        rw [h]

/-- The fuel measure of a value is covered by the length of its printed
form (plus one), so `jloads`'s fuel always suffices for round-trips. -/
theorem size_le_len : ∀ n : Nat,
    (∀ (v : JVal) (ind : Nat), jsizeF v ≤ n →
      jsizeF v ≤ (printVal ind v).length + 1) ∧
    (∀ (xs : List JVal) (ind : Nat), itemsF xs ≤ n →
      itemsF xs ≤ (printArrTail ind xs).length + 1) ∧
    (∀ (kvs : List (String × JVal)) (ind : Nat), kitemsF kvs ≤ n →
      kitemsF kvs ≤ (printObjTail ind kvs).length + 1) := by
  intro n
  induction n with
  | zero =>
    refine ⟨?_, ?_, ?_⟩
    · intro v ind h
      have := jsizeF_pos v
      omega
    · intro xs ind h
      have := itemsF_pos xs
      omega
    · intro kvs ind h
      have := kitemsF_pos kvs
      omega
  | succ m ih =>
    obtain ⟨ihV, ihA, ihO⟩ := ih
    refine ⟨?_, ?_, ?_⟩
    · intro v ind hsz
      cases v with
      | null =>
        rw [show jsizeF .null = 1 from by rw [jsizeF]]
        omega
      | str s =>
        rw [show jsizeF (.str s) = 1 from by rw [jsizeF]]
        omega
      | arr xs =>
        cases xs with
        | nil =>
          rw [show printVal ind (.arr []) = ['[', ']'] from by rw [printVal],
            show jsizeF (.arr []) = 1 + itemsF [] from by rw [jsizeF],
            show itemsF ([] : List JVal) = 1 from by rw [itemsF]]
          simp
        | cons x t =>
          have hsz2 : jsizeF (.arr (x :: t)) = 1 + (1 + jsizeF x + itemsF t) := by
            rw [jsizeF, itemsF]
          have hx : jsizeF x ≤ m := by
            have h1 := itemsF_pos t
            rw [hsz2] at hsz
            omega
          have ht : itemsF t ≤ m := by
            have h1 := jsizeF_pos x
            rw [hsz2] at hsz
            omega
          have hx2 := ihV x (ind + 2) hx
          have ht2 := ihA t (ind + 2) ht
          rw [hsz2, show printVal ind (.arr (x :: t)) = '[' :: ('\n' :: (sp (ind + 2) ++
            (printVal (ind + 2) x ++ (printArrTail (ind + 2) t ++
              ('\n' :: (sp ind ++ [']'])))))) from by rw [printVal]]
          simp only [List.length_cons, List.length_append, sp, List.length_replicate,
            List.length_nil]
          omega
      | obj kvs =>
        cases kvs with
        | nil =>
          rw [show printVal ind (.obj []) = ['\x7b', '\x7d'] from by rw [printVal],
            show jsizeF (.obj []) = 1 + kitemsF [] from by rw [jsizeF],
            show kitemsF ([] : List (String × JVal)) = 1 from by rw [kitemsF]]
          simp
        | cons kv t =>
          obtain ⟨k, v⟩ := kv
          have hsz2 : jsizeF (.obj ((k, v) :: t)) = 1 + (1 + jsizeF v + kitemsF t) := by
            rw [jsizeF, kitemsF]
          have hv : jsizeF v ≤ m := by
            have h1 := kitemsF_pos t
            rw [hsz2] at hsz
            omega
          have ht : kitemsF t ≤ m := by
            have h1 := jsizeF_pos v
            rw [hsz2] at hsz
            omega
          have hv2 := ihV v (ind + 2) hv
          have ht2 := ihO t (ind + 2) ht
          rw [hsz2, show printVal ind (.obj ((k, v) :: t)) = '\x7b' :: ('\n' ::
            (sp (ind + 2) ++ (printKV (ind + 2) k v ++ (printObjTail (ind + 2) t ++
              ('\n' :: (sp ind ++ ['\x7d'])))))) from by rw [printVal],
            show printKV (ind + 2) k v = '"' :: (escape k ++ ('"' :: ':' :: ' ' ::
              printVal (ind + 2) v)) from by rw [printKV]]
          simp only [List.length_cons, List.length_append, sp, List.length_replicate,
            List.length_nil]
          omega
    · intro xs ind hsz
      cases xs with
      | nil =>
        rw [show itemsF ([] : List JVal) = 1 from by rw [itemsF]]
        omega
      | cons x t =>
        have hterm : itemsF (x :: t) = 1 + jsizeF x + itemsF t := by rw [itemsF]
        have hx : jsizeF x ≤ m := by
          have h1 := itemsF_pos t
          rw [hterm] at hsz
          omega
        have ht : itemsF t ≤ m := by
          have h1 := jsizeF_pos x
          rw [hterm] at hsz
          omega
        have hx2 := ihV x ind hx
        have ht2 := ihA t ind ht
        rw [hterm, show printArrTail ind (x :: t) = ',' :: ('\n' :: (sp ind ++
          (printVal ind x ++ printArrTail ind t))) from by rw [printArrTail]]
        simp only [List.length_cons, List.length_append, sp, List.length_replicate,
          List.length_nil]
        omega
    · intro kvs ind hsz
      cases kvs with
      | nil =>
        rw [show kitemsF ([] : List (String × JVal)) = 1 from by rw [kitemsF]]
        omega
      | cons kv t =>
        obtain ⟨k, v⟩ := kv
        have hterm : kitemsF ((k, v) :: t) = 1 + jsizeF v + kitemsF t := by rw [kitemsF]
        have hv : jsizeF v ≤ m := by
          have h1 := kitemsF_pos t
          rw [hterm] at hsz
          omega
        have ht : kitemsF t ≤ m := by
          have h1 := jsizeF_pos v
          rw [hterm] at hsz
          omega
        have hv2 := ihV v ind hv
        have ht2 := ihO t ind ht
        rw [hterm, show printObjTail ind ((k, v) :: t) = ',' :: ('\n' :: (sp ind ++
          (printKV ind k v ++ printObjTail ind t))) from by rw [printObjTail],
          show printKV ind k v = '"' :: (escape k ++ ('"' :: ':' :: ' ' ::
            printVal ind v)) from by rw [printKV]]
        simp only [List.length_cons, List.length_append, sp, List.length_replicate,
          List.length_nil]
        omega

/-- Parsing inverts printing: `json.loads` undoes `json.dumps` on the modelled value fragment. -/
theorem jloads_dumps (v : JVal) : jloads (dumps v) = some v := by
  have hlen : jsizeF v ≤ (printVal 0 v).length + 1 :=
    (size_le_len (jsizeF v)).1 v 0 le_rfl
  have h := (parse_print ((printVal 0 v).length + 1)).1 v 0 [] hlen
  rw [List.append_nil] at h
  show (match parseVal ((printVal 0 v).length + 1) (printVal 0 v) with
    | some (w, rest) => if (skipWs rest).isEmpty then some w else none
    | none => none) = some v
  rw [h]
  rfl

/-- Saving a history and loading it back returns it unchanged. -/
theorem load_save (v : JVal) (st : Store) :
    load_changelog (save_changelog v st) = v := by
  show (match jloads (dumps v) with | some w => w | none => .arr []) = v
  rw [jloads_dumps]

/-- A stored changelog entry dict: all values are strings. -/
def wf_entry : JVal → Bool
  | .obj kvs => kvs.all (fun kv => match kv.2 with | .str _ => true | _ => false)
  | _ => false

/-- A stored batch dict: the three documented fields, with
`commit_hash` a string or null and `entries` a list of entry dicts. -/
def wf_batch : JVal → Bool
  | .obj [("date", .str _), ("commit_hash", ch), ("entries", .arr es)] =>
    (match ch with | .null => true | .str _ => true | _ => false) && es.all wf_entry
  | _ => false

/-- A history composed of the documented fields: a list of batches. -/
def wf_history : JVal → Bool
  | .arr bs => bs.all wf_batch
  | _ => false

/-- Claim C8: for every history composed of the documented fields,
`save_changelog` followed by `load_changelog` returns a history equal
to the original. -/
theorem claim_C8_roundtrip :
    ∀ (h : JVal) (st : Store), wf_history h = true →
      load_changelog (save_changelog h st) = h :=
  fun h st _ => load_save h st

/-- A concrete well-formed one-batch history. -/
def c8wit_history : JVal :=
  .arr [.obj [("date", .str "2026-01-28T15:04:31+00:00"),
              ("commit_hash", .str "abc1234"),
              ("entries", .arr [.obj [("title", .str "Hooks"),
                                      ("summary", .str "요약입니다."),
                                      ("tag_text", .str "UPDATE"),
                                      ("tag_class", .str "update")]])]]

/-- Witness for C8 at a concrete history and an empty store. -/
theorem claim_C8_witness :
    wf_history c8wit_history = true ∧
    load_changelog (save_changelog c8wit_history ⟨none⟩) = c8wit_history :=
  ⟨by decide, claim_C8_roundtrip c8wit_history ⟨none⟩ (by decide)⟩

/-- Claim C6: `update_json_data` with an empty update list returns the
currently loaded history and leaves the store untouched — no batch is
written. -/
theorem claim_C6_appendBatch_empty :
    ∀ (commit_hash : Option String) (now : String)
      (commit_date : String → String) (st : Store),
      update_json_data [] commit_hash now commit_date st =
        some (load_changelog st, st) :=
  fun _ _ _ _ => rfl

/-- Witness for C6 at concrete arguments. -/
theorem claim_C6_witness :
    update_json_data [] (some "abc1234") "2026-02-03T00:00:00+00:00"
      (fun _ => "2026-01-28T15:04:31+00:00") ⟨none⟩ =
      some (load_changelog ⟨none⟩, ⟨none⟩) :=
  claim_C6_appendBatch_empty (some "abc1234") "2026-02-03T00:00:00+00:00"
    (fun _ => "2026-01-28T15:04:31+00:00") ⟨none⟩

/-- Claim C7: with a non-empty update list and a prior history of `n`
batches, `update_json_data` succeeds with a history of exactly `n + 1`
batches whose index-0 element is the new batch carrying the given
entries, and that history is persisted (loading the resulting store
returns it). -/
theorem claim_C7_appendBatch :
    ∀ (updates : List JVal) (commit_hash : Option String) (now : String)
      (commit_date : String → String) (st : Store) (hs : List JVal),
      updates ≠ [] → load_changelog st = .arr hs →
      ∃ (date_str : String) (st2 : Store),
        update_json_data updates commit_hash now commit_date st =
          some (.arr (new_entry date_str commit_hash updates :: hs), st2) ∧
        (new_entry date_str commit_hash updates :: hs).length = hs.length + 1 ∧
        (∃ kvs, new_entry date_str commit_hash updates = .obj kvs ∧
          jget kvs "entries" = some (.arr updates)) ∧
        load_changelog st2 =
          .arr (new_entry date_str commit_hash updates :: hs) := by
  intro updates commit_hash now commit_date st hs hne hload
  refine ⟨match commit_hash with | some h => commit_date h | none => now,
    save_changelog (.arr (new_entry (match commit_hash with
      | some h => commit_date h | none => now) commit_hash updates :: hs)) st,
    ?_, by simp, ?_, ?_⟩
  · unfold update_json_data
    rw [if_neg (by simpa [List.isEmpty_iff] using hne), hload]
  · exact ⟨_, rfl, rfl⟩
  · exact load_save _ _

/-- Witness for C7: one concrete entry appended to the empty history of
an absent store file. -/
theorem claim_C7_witness :
    ∃ (date_str : String) (st2 : Store),
      update_json_data [.obj [("title", .str "T"), ("summary", .str "S"),
          ("tag_text", .str "UPDATE"), ("tag_class", .str "update")]]
        (some "abc1234") "2026-02-03T00:00:00+00:00"
        (fun _ => "2026-01-28T15:04:31+00:00") ⟨none⟩ =
        some (.arr [new_entry date_str (some "abc1234")
          [.obj [("title", .str "T"), ("summary", .str "S"),
            ("tag_text", .str "UPDATE"), ("tag_class", .str "update")]]], st2) ∧
      ([new_entry date_str (some "abc1234")
        [.obj [("title", .str "T"), ("summary", .str "S"),
          ("tag_text", .str "UPDATE"), ("tag_class", .str "update")]]]).length
        = ([] : List JVal).length + 1 ∧
      (∃ kvs, new_entry date_str (some "abc1234")
          [.obj [("title", .str "T"), ("summary", .str "S"),
            ("tag_text", .str "UPDATE"), ("tag_class", .str "update")]] = .obj kvs ∧
        jget kvs "entries" = some (.arr [.obj [("title", .str "T"),
          ("summary", .str "S"), ("tag_text", .str "UPDATE"),
          ("tag_class", .str "update")]])) ∧
      load_changelog st2 = .arr [new_entry date_str (some "abc1234")
        [.obj [("title", .str "T"), ("summary", .str "S"),
          ("tag_text", .str "UPDATE"), ("tag_class", .str "update")]]] := by
  have h := claim_C7_appendBatch
    [.obj [("title", .str "T"), ("summary", .str "S"),
      ("tag_text", .str "UPDATE"), ("tag_class", .str "update")]]
    (some "abc1234") "2026-02-03T00:00:00+00:00"
    (fun _ => "2026-01-28T15:04:31+00:00") ⟨none⟩ [] (by simp) rfl
  exact h

/-! ## Entry assembly and the per-file loop of `main` (lines 339-425)

`os.path.basename`, `str.endswith`, `str.lower`, `str.title` and
`str.replace` are modelled on character lists (`str.title`'s
cased-tracking restricted to ASCII letters, the only cased characters
the script's filenames and headers contain). -/

/-- Python `str.lower` (ASCII). -/
def pyLower (s : String) : String := ⟨s.data.map Char.toLower⟩

/-- Python `str.title` worker: uppercase a cased character that follows
a non-cased one, lowercase the rest. -/
def pyTitleAux : Bool → List Char → List Char
  | _, [] => []
  | prevCased, c :: cs =>
    (if prevCased then c.toLower else c.toUpper) :: pyTitleAux c.isAlpha cs

/-- Python `str.title` (ASCII cased letters). -/
def pyTitle (s : String) : String := ⟨pyTitleAux false s.data⟩

/-- Python `str.replace` worker, fuelled to stay structural: scan left
to right, replacing each non-overlapping occurrence of `pat`. -/
def pyReplaceF (pat rep : List Char) : Nat → List Char → List Char
  | 0, l => l
  | _ + 1, [] => []
  | fuel + 1, c :: cs =>
    if pat.isPrefixOf (c :: cs) then
      rep ++ pyReplaceF pat rep fuel (cs.drop (pat.length - 1))
    else c :: pyReplaceF pat rep fuel cs

/-- Python `s.replace(pat, rep)` for nonempty `pat` (the script only
replaces `".md"` and `"-"`); the fuel bound is never reached because
every step consumes at least one character. -/
def pyReplace (s pat rep : String) : String :=
  ⟨pyReplaceF pat.data rep.data (s.data.length + 1) s.data⟩

/-- Python `os.path.basename`: the part after the last slash. -/
def pyBasename (p : String) : String :=
  ⟨(p.data.reverse.takeWhile (fun c => c != '/')).reverse⟩

/-- Python `str.endswith`. -/
def pyEndsWith (s suffix : String) : Bool := suffix.data.isSuffixOf s.data

/-- Python `file_arg.split(':', 1)`. -/
def splitColon1 (s : String) : String × String :=
  (⟨s.data.takeWhile (fun c => c != ':')⟩,
   ⟨(s.data.dropWhile (fun c => c != ':')).drop 1⟩)

def base_url : String := "https://code.claude.com/docs/en"

/-- The per-fragment entry assembly of lines 403-425: take `header`
(default "Overview") and `summary` (default "") from the fragment dict,
link to the document top when the lowercased header is "overview", the
bare or full filename, or empty, else to a slugified deep anchor.
`none` models the `AttributeError` Python raises when the fragment is
not a dict or its header value is not a string (`header.lower()`). -/
def assemble_item (filename tag_text tag_class : String) (item : JVal) : Option JVal :=
  match item with
  | .obj kvs =>
    match (jget kvs "header").getD (.str "Overview") with
    | .str header =>
      if pyLower header ∈ ["overview", pyLower (pyReplace filename ".md" ""),
          pyLower filename, ""] then
        some (.obj [("title", .str ("<a href=\"" ++ (base_url ++ "/" ++
            pyReplace filename ".md" "") ++ "\" target=\"_blank\">" ++
            pyReplace (pyTitle (pyReplace filename ".md" "")) "-" " " ++ "</a>")),
          ("summary", (jget kvs "summary").getD (.str "")),
          ("tag_text", .str tag_text), ("tag_class", .str tag_class)])
      else
        some (.obj [("title", .str ("<a href=\"" ++ (base_url ++ "/" ++
            pyReplace filename ".md" "" ++ "#" ++ slugify header) ++
            "\" target=\"_blank\">" ++
            (pyReplace (pyTitle (pyReplace filename ".md" "")) "-" " " ++ " > " ++
              header) ++ "</a>")),
          ("summary", (jget kvs "summary").getD (.str "")),
          ("tag_text", .str tag_text), ("tag_class", .str tag_class)])
    | _ => none
  | _ => none

/-- Collaborator outcomes for one file of `main`'s loop: the result of
`get_git_diff(file_path, commit_hash)` (`none` models the logged
failure returning `None`), the Added-file fallback content read from
`git show` or the filesystem (`none` models the swallowed exception),
and the summarization service. -/
structure FileCtx where
  get_diff : Option String
  show_content : Option String
  model : String → Nat → Except String JVal

/-- Parse `"STATUS:FILENAME"` or a bare `"FILENAME"` (status defaults
to Modified). -/
def parse_file_arg (file_arg : String) : String × String :=
  if file_arg.data.contains ':' then splitColon1 file_arg else ("M", file_arg)

/-- One iteration of `main`'s `for file_arg in args.files` loop (lines
339-425): parse `STATUS:path` (default status Modified), skip files not
ending in `.md`, emit the fixed no-link entry for deletions without
summarizing, otherwise obtain content (diff, with the new-file
fallbacks), skip when empty, and turn each returned fragment into an
entry.  Returns the appended update dicts plus how many times
`generate_summary` ran; `none` models an uncaught Python exception. -/
def process_file (ctx : FileCtx) (file_arg : String) : Option (List JVal × Nat) :=
  let status := (parse_file_arg file_arg).1
  let file_path := (parse_file_arg file_arg).2
  let filename := pyBasename file_path
  if !pyEndsWith filename ".md" then some ([], 0)
  else
    let tag_text := if status = "A" then "NEW"
                    else if status = "D" then "DELETE" else "UPDATE"
    let tag_class := if status = "A" then "new"
                     else if status = "D" then "delete" else "update"
    let is_new : Bool := status = "A"
    if status = "D" then
      some ([.obj [("title", .str (pyTitle (pyReplace filename ".md" ""))),
        ("summary", .str "문서가 삭제되었습니다."),
        ("tag_text", .str tag_text), ("tag_class", .str tag_class)]], 0)
    else
      let contentD := ctx.get_diff.getD ""
      let content := if is_new then
          (if contentD = "" then ctx.show_content.getD "" else contentD)
        else contentD
      if content = "" then some ([], 0)
      else
        match (generate_summary ctx.model filename content is_new).1 with
        | .arr items =>
          match items.mapM (assemble_item filename tag_text tag_class) with
          | some entries => some (entries, 1)
          | none => none
        | .str s => if s.data = [] then some ([], 1) else none
        | .obj [] => some ([], 1)
        | .obj (_ :: _) => none
        | .null => none

/-! ### A Python-titled string never begins with hyperlink markup -/

theorem char_toUpper_ne_a (c : Char) : Char.toUpper c ≠ 'a' := by
  intro h
  have h2 := congrArg Char.toNat h
  have ha : ('a' : Char).toNat = 97 := rfl
  unfold Char.toUpper at h2
  by_cases hr : c.toNat ≥ 97 ∧ c.toNat ≤ 122
  · rw [if_pos hr, char_toNat_ofNat_of_lt (by omega)] at h2
    omega
  · rw [if_neg hr] at h2
    omega

theorem char_toUpper_eq_lt {c : Char} (h : Char.toUpper c = '<') : c = '<' := by
  unfold Char.toUpper at h
  by_cases hr : c.toNat ≥ 97 ∧ c.toNat ≤ 122
  · rw [if_pos hr] at h
    have h2 := congrArg Char.toNat h
    rw [char_toNat_ofNat_of_lt (by omega)] at h2
    have hlt : ('<' : Char).toNat = 60 := rfl
    omega
  · rwa [if_neg hr] at h

theorem char_toLower_eq_lt {c : Char} (h : Char.toLower c = '<') : c = '<' := by
  unfold Char.toLower at h
  by_cases hr : c.toNat ≥ 65 ∧ c.toNat ≤ 90
  · rw [if_pos hr] at h
    have h2 := congrArg Char.toNat h
    rw [char_toNat_ofNat_of_lt (by omega)] at h2
    have hlt : ('<' : Char).toNat = 60 := rfl
    omega
  · rwa [if_neg hr] at h

/-- Output of `str.title` never starts with `<a`, hence a titled deletion
entry carries no `<a href=...>` hyperlink markup. -/
theorem pyTitleAux_no_link :
    ∀ (b : Bool) (l tail : List Char), pyTitleAux b l ≠ '<' :: 'a' :: tail := by
  intro b l tail h
  cases l with
  | nil => simp [pyTitleAux] at h
  | cons c cs =>
    rw [pyTitleAux] at h
    have h1 := List.head_eq_of_cons_eq h
    have h2 := List.tail_eq_of_cons_eq h
    have hc : c = '<' := by
      cases b with
      | true => exact char_toLower_eq_lt (by simpa using h1)
      | false => exact char_toUpper_eq_lt (by simpa using h1)
    subst hc
    rw [show ('<' : Char).isAlpha = false from rfl] at h2
    cases cs with
    | nil => simp [pyTitleAux] at h2
    | cons d ds =>
      rw [pyTitleAux] at h2
      have h3 := List.head_eq_of_cons_eq h2
      simp only [Bool.false_eq_true, if_false] at h3
      exact char_toUpper_ne_a d h3

/-- Counterexample to claim C10: a fragment dictionary whose `header`
value is a list (not a string) makes assembly fail (`header.lower()`
raises), so assembly is not total over arbitrary fragment dicts. -/
theorem claim_C10_counterexample :
    assemble_item "hooks.md" "UPDATE" "update" (.obj [("header", .arr [])]) = none := rfl

/-- Claim C10 as amended: assembly is total over fragment dictionaries
whose `header` value, when present, is a string: a missing `header` is
treated as "Overview" (linking to the document top) and a missing
`summary` becomes the empty string; a fragment that is not a dictionary
or whose `header` value is not a string makes assembly fail. -/
theorem claim_C10_amended :
    ∀ (filename tag_text tag_class : String) (kvs : List (String × JVal)),
      (jget kvs "header" = none →
        assemble_item filename tag_text tag_class (.obj kvs) =
          some (.obj [("title", .str ("<a href=\"" ++ (base_url ++ "/" ++
              pyReplace filename ".md" "") ++ "\" target=\"_blank\">" ++
              pyReplace (pyTitle (pyReplace filename ".md" "")) "-" " " ++ "</a>")),
            ("summary", (jget kvs "summary").getD (.str "")),
            ("tag_text", .str tag_text), ("tag_class", .str tag_class)])) ∧
      (∀ h : String, jget kvs "header" = some (.str h) →
        ∃ title : String,
          assemble_item filename tag_text tag_class (.obj kvs) =
            some (.obj [("title", .str title),
              ("summary", (jget kvs "summary").getD (.str "")),
              ("tag_text", .str tag_text), ("tag_class", .str tag_class)])) := by
  intro fn tt tc kvs
  constructor
  · intro hg
    simp only [assemble_item, hg, Option.getD_none]
    rw [if_pos (by
      rw [show pyLower "Overview" = "overview" from rfl]
      exact List.mem_cons_self _ _)]
  · intro h hg
    simp only [assemble_item, hg, Option.getD_some]
    by_cases hm : pyLower h ∈ ["overview", pyLower (pyReplace fn ".md" ""),
        pyLower fn, ""]
    · rw [if_pos hm]
      exact ⟨_, rfl⟩
    · rw [if_neg hm]
      exact ⟨_, rfl⟩

/-- Witness for C10: a fragment with no `header` key links to the top
and a fragment with no `summary` key would default to the empty
string. -/
theorem claim_C10_witness :
    assemble_item "hooks.md" "UPDATE" "update" (.obj [("summary", .str "s")]) =
      some (.obj [("title",
        .str "<a href=\"https://code.claude.com/docs/en/hooks\" target=\"_blank\">Hooks</a>"),
        ("summary", .str "s"), ("tag_text", .str "UPDATE"),
        ("tag_class", .str "update")]) :=
  (claim_C10_amended "hooks.md" "UPDATE" "update" [("summary", .str "s")]).1 rfl

/-- Counterexample to claim C3: the code also sends a header equal
(case-insensitively) to the FULL filename — here "hooks.md" — to the
document top, although the claim's top-link set ("overview", bare
filename, empty) does not contain it and so demands the anchor
`#hooksmd`. -/
theorem claim_C3_counterexample :
    pyLower "hooks.md" ∉ ["overview", pyLower (pyReplace "hooks.md" ".md" ""), ""] ∧
    slugify "hooks.md" = "hooksmd" ∧
    assemble_item "hooks.md" "UPDATE" "update"
      (.obj [("header", .str "hooks.md"), ("summary", .str "s")]) =
      some (.obj [("title",
        .str "<a href=\"https://code.claude.com/docs/en/hooks\" target=\"_blank\">Hooks</a>"),
        ("summary", .str "s"), ("tag_text", .str "UPDATE"),
        ("tag_class", .str "update")]) ∧
    '#' ∉ ("<a href=\"https://code.claude.com/docs/en/hooks\" target=\"_blank\">Hooks</a>").data :=
  ⟨by decide, by decide, rfl, by decide⟩

/-- Claim C3 as amended: a fragment's entry links to the document top
exactly when the lowercased header is "overview", the bare filename,
the FULL filename, or empty; any other header links to the slugified
deep anchor.  The two concrete instances of the claim hold. -/
theorem claim_C3_title_links :
    (∀ (filename header s tag_text tag_class : String),
      (pyLower header ∈ ["overview", pyLower (pyReplace filename ".md" ""),
          pyLower filename, ""] →
        assemble_item filename tag_text tag_class
          (.obj [("header", .str header), ("summary", .str s)]) =
          some (.obj [("title", .str ("<a href=\"" ++ (base_url ++ "/" ++
              pyReplace filename ".md" "") ++ "\" target=\"_blank\">" ++
              pyReplace (pyTitle (pyReplace filename ".md" "")) "-" " " ++ "</a>")),
            ("summary", .str s),
            ("tag_text", .str tag_text), ("tag_class", .str tag_class)])) ∧
      (pyLower header ∉ ["overview", pyLower (pyReplace filename ".md" ""),
          pyLower filename, ""] →
        assemble_item filename tag_text tag_class
          (.obj [("header", .str header), ("summary", .str s)]) =
          some (.obj [("title", .str ("<a href=\"" ++ (base_url ++ "/" ++
              pyReplace filename ".md" "" ++ "#" ++ slugify header) ++
              "\" target=\"_blank\">" ++
              (pyReplace (pyTitle (pyReplace filename ".md" "")) "-" " " ++ " > " ++
                header) ++ "</a>")),
            ("summary", .str s),
            ("tag_text", .str tag_text), ("tag_class", .str tag_class)]))) ∧
    assemble_item "hooks.md" "UPDATE" "update"
      (.obj [("header", .str "Overview"), ("summary", .str "s")]) =
      some (.obj [("title",
        .str "<a href=\"https://code.claude.com/docs/en/hooks\" target=\"_blank\">Hooks</a>"),
        ("summary", .str "s"), ("tag_text", .str "UPDATE"),
        ("tag_class", .str "update")]) ∧
    assemble_item "hooks.md" "UPDATE" "update"
      (.obj [("header", .str "Custom Tool Config"), ("summary", .str "s")]) =
      some (.obj [("title",
        .str "<a href=\"https://code.claude.com/docs/en/hooks#custom-tool-config\" target=\"_blank\">Hooks > Custom Tool Config</a>"),
        ("summary", .str "s"), ("tag_text", .str "UPDATE"),
        ("tag_class", .str "update")]) := by
  refine ⟨fun fn h s tt tc => ?_, rfl, rfl⟩
  have hjh : jget [("header", JVal.str h), ("summary", JVal.str s)] "header"
      = some (.str h) := rfl
  have hjs : jget [("header", JVal.str h), ("summary", JVal.str s)] "summary"
      = some (.str s) := rfl
  constructor
  · intro hm
    simp only [assemble_item, hjh, hjs, Option.getD_some]
    rw [if_pos hm]
  · intro hm
    simp only [assemble_item, hjh, hjs, Option.getD_some]
    rw [if_neg hm]

/-- Witness for C3 at a fresh concrete header that matches the bare
filename case-insensitively. -/
theorem claim_C3_witness :
    assemble_item "mcp.md" "NEW" "new"
      (.obj [("header", .str "MCP"), ("summary", .str "내용")]) =
      some (.obj [("title",
        .str "<a href=\"https://code.claude.com/docs/en/mcp\" target=\"_blank\">Mcp</a>"),
        ("summary", .str "내용"), ("tag_text", .str "NEW"),
        ("tag_class", .str "new")]) :=
  (claim_C3_title_links.1 "mcp.md" "MCP" "내용" "NEW" "new").1 (by decide)

/-- Claim C5: a Deleted token whose path ends in `.md` always yields
exactly one entry with the delete tag, the fixed removal summary and a
title free of hyperlink markup, and `generate_summary` is never invoked
(the invocation count is 0), whatever the collaborators do. -/
theorem claim_C5_deleted :
    ∀ (ctx : FileCtx) (path : String),
      pyEndsWith (pyBasename path) ".md" = true →
      process_file ctx ("D:" ++ path) =
        some ([.obj [("title", .str (pyTitle (pyReplace (pyBasename path) ".md" ""))),
          ("summary", .str "문서가 삭제되었습니다."),
          ("tag_text", .str "DELETE"), ("tag_class", .str "delete")]], 0) ∧
      (∀ tail : List Char,
        (pyTitle (pyReplace (pyBasename path) ".md" "")).data ≠ '<' :: 'a' :: tail) := by
  intro ctx path hmd
  constructor
  · have hsplit : parse_file_arg ("D:" ++ path) = ("D", path) := rfl
    simp only [process_file, hsplit, hmd]
    rfl
  · intro tail
    exact pyTitleAux_no_link false _ tail

/-- Collaborators for the C5 witness: no diff, no content, a failing
service — none of it matters for a deletion. -/
def c5wit_ctx : FileCtx :=
  { get_diff := none, show_content := none, model := fun _ _ => .error "down" }

/-- Witness for C5 at a concrete Deleted token. -/
theorem claim_C5_witness :
    process_file c5wit_ctx ("D:" ++ "docs/foo.md") =
      some ([.obj [("title",
        .str (pyTitle (pyReplace (pyBasename "docs/foo.md") ".md" ""))),
        ("summary", .str "문서가 삭제되었습니다."),
        ("tag_text", .str "DELETE"), ("tag_class", .str "delete")]], 0) ∧
    (∀ tail : List Char,
      (pyTitle (pyReplace (pyBasename "docs/foo.md") ".md" "")).data ≠
        '<' :: 'a' :: tail) :=
  claim_C5_deleted c5wit_ctx "docs/foo.md" (by decide)

theorem mapM_mem_option {f : JVal → Option JVal} :
    ∀ {xs ys : List JVal}, xs.mapM f = some ys → ∀ y ∈ ys, ∃ x, f x = some y := by
  intro xs
  induction xs with
  | nil =>
    intro ys h y hy
    simp only [List.mapM_nil, pure, Option.some.injEq] at h
    subst h
    simp at hy
  | cons x t ih =>
    intro ys h y hy
    rw [List.mapM_cons] at h
    cases hfx : f x with
    | none => rw [hfx] at h; simp at h
    | some e =>
      rw [hfx] at h
      cases hmt : t.mapM f with
      | none => rw [hmt] at h; simp at h
      | some es =>
        rw [hmt] at h
        simp at h
        subst h
        rcases List.mem_cons.mp hy with h1 | h1
        · exact ⟨x, by rw [hfx, h1]⟩
        · exact ih hmt y h1

/-- Every entry `assemble_item` produces is a dict of exactly the four
documented keys, with no `diff_file` reference. -/
theorem assemble_item_shape {fn tt tc : String} {item e : JVal}
    (h : assemble_item fn tt tc item = some e) :
    ∃ kvs, e = .obj kvs ∧ jget kvs "diff_file" = none := by
  cases item with
  | null => simp [assemble_item] at h
  | str s => simp [assemble_item] at h
  | arr xs => simp [assemble_item] at h
  | obj kvs =>
    simp only [assemble_item] at h
    split at h
    · split at h
      · exact ⟨_, (Option.some.inj h).symm, rfl⟩
      · exact ⟨_, (Option.some.inj h).symm, rfl⟩
    · cases h

/-- Claim C2 as amended: no changelog entry the file loop produces —
for Modified files just like Added or Deleted ones — carries a
`diff_file` reference (the script persists no diff artifact at all);
every entry consists of exactly `title`, `summary`, `tag_text` and
`tag_class`. -/
theorem claim_C2_amended :
    ∀ (ctx : FileCtx) (file_arg : String) (updates : List JVal) (n : Nat),
      process_file ctx file_arg = some (updates, n) →
      ∀ e ∈ updates, ∃ kvs, e = .obj kvs ∧ jget kvs "diff_file" = none := by
  intro ctx file_arg updates n h e he
  simp only [process_file] at h
  repeat' split at h
  all_goals cases h
  all_goals
    first
      | exact absurd he (List.not_mem_nil e)
      | (rw [List.mem_singleton] at he
         subst he
         exact ⟨_, rfl, rfl⟩)
      | (rename_i heqmap
         obtain ⟨item, hitem⟩ := mapM_mem_option heqmap e he
         exact assemble_item_shape hitem)

/-- Collaborators for the C2 counterexample: a Modified file with a
diff and a service returning one Overview fragment. -/
def c2cex_ctx : FileCtx :=
  { get_diff := some "@@ -1 +1 @@",
    show_content := none,
    model := fun _ _ =>
      .ok (.arr [.obj [("header", .str "Overview"), ("summary", .str "요약")]]) }

/-- Counterexample to claim C2: a Modified-file entry carries no
`diff_file` reference — the script persists no diff artifact and the
entry has only the four documented keys. -/
theorem claim_C2_counterexample :
    process_file c2cex_ctx "M:docs/hooks.md" =
      some ([.obj [("title",
        .str "<a href=\"https://code.claude.com/docs/en/hooks\" target=\"_blank\">Hooks</a>"),
        ("summary", .str "요약"), ("tag_text", .str "UPDATE"),
        ("tag_class", .str "update")]], 1) ∧
    jget [("title",
      .str "<a href=\"https://code.claude.com/docs/en/hooks\" target=\"_blank\">Hooks</a>"),
      ("summary", .str "요약"), ("tag_text", .str "UPDATE"),
      ("tag_class", .str "update")] "diff_file" = none :=
  ⟨rfl, rfl⟩

/-- Witness for the amended C2 at the concrete Modified-file run. -/
theorem claim_C2_witness :
    ∃ kvs, (JVal.obj [("title",
      .str "<a href=\"https://code.claude.com/docs/en/hooks\" target=\"_blank\">Hooks</a>"),
      ("summary", .str "요약"), ("tag_text", .str "UPDATE"),
      ("tag_class", .str "update")]) = .obj kvs ∧ jget kvs "diff_file" = none :=
  claim_C2_amended c2cex_ctx "M:docs/hooks.md"
    [.obj [("title",
      .str "<a href=\"https://code.claude.com/docs/en/hooks\" target=\"_blank\">Hooks</a>"),
      ("summary", .str "요약"), ("tag_text", .str "UPDATE"),
      ("tag_class", .str "update")]] 1 rfl _ (List.mem_singleton.mpr rfl)
